import Mathlib

/-!
Verification of the HillPulse ingestion server (src/server.js, two variants:
a baseline variant with deduplication and email, and a hardened variant with
shared-secret authorization and summarizer retry).

All definitions are shallow embeddings of the JavaScript source.  Strings are
modelled as Lean `String` (or `List Char` where character-level processing
matters), JavaScript `Date.now()` values as `Nat` milliseconds, network
effects as explicit `Except`-valued parameters, and JS truthiness of strings
and numbers explicitly (empty string and the number 0 are falsy).
-/

namespace HillPulse

/-! ## Deduplicator (src/server.js lines 12-25, baseline variant)

`SEEN` is a `Map` from id strings to `Date.now()` timestamps.  We model it as
an association list preserving JS `Map` insertion-order semantics
(`Map.set` updates an existing key in place, otherwise appends). -/

/-- `TTL_MS = 24 * 60 * 60 * 1000` (line 13). -/
def TTL_MS : Nat := 24 * 60 * 60 * 1000

/-- JS `Map.prototype.set`: replace the value of the first (unique) matching
key in place, otherwise append the new entry at the end. -/
def mapSet : List (String × Nat) → String → Nat → List (String × Nat)
  | [], id, v => [(id, v)]
  | (k, w) :: rest, id, v =>
    if k == id then (id, v) :: rest else (k, w) :: mapSet rest id v

/-- JS `Map.prototype.get` as an `Option`. -/
def lookupSeen (seen : List (String × Nat)) (id : String) : Option Nat :=
  match seen.find? (fun p => p.1 == id) with
  | some p => some p.2
  | none => none

/-- `markSeen(id)` (lines 15-20): `SEEN.set(id, Date.now())` followed by a
pruning pass deleting every entry with `Date.now() - t > TTL_MS`.  `now` is
the single `Date.now()` tick of the call. -/
def markSeen (seen : List (String × Nat)) (id : String) (now : Nat) :
    List (String × Nat) :=
  (mapSet seen id now).filter (fun p => !(decide (now - p.2 > TTL_MS)))

/-- `isSeen(id)` (lines 22-25): `const t = SEEN.get(id); return t &&
(Date.now() - t) < TTL_MS;`.  JS truthiness: a missing entry
(`undefined`) and the timestamp `0` are both falsy, so the function result is
falsy in those cases. -/
def isSeen (seen : List (String × Nat)) (id : String) (now : Nat) : Bool :=
  match lookupSeen seen id with
  | none => false
  | some t => if t = 0 then false else decide (now - t < TTL_MS)

theorem lookupSeen_markSeen_self (seen : List (String × Nat)) (id : String)
    (now : Nat) : lookupSeen (markSeen seen id now) id = some now := by
  induction seen with
  | nil =>
      simp [markSeen, mapSet, lookupSeen, List.filter_cons, Nat.sub_self]
  | cons hd tl ih =>
      obtain ⟨k, w⟩ := hd
      simp only [markSeen] at ih ⊢
      by_cases hk : (k == id) = true
      · simp [mapSet, hk, lookupSeen, List.filter_cons, Nat.sub_self]
      · have hk' : (k == id) = false := by simpa using hk
        simp only [mapSet, hk', Bool.false_eq_true, if_false]
        rcases h : (!(decide (now - w > TTL_MS))) with _ | _
        · simpa only [List.filter_cons, h, if_false] using ih
        · simp only [List.filter_cons, h, if_true]
          simpa only [lookupSeen, List.find?_cons, hk'] using ih

theorem isSeen_markSeen_self (seen : List (String × Nat)) (id : String)
    (T T' : Nat) (hT : 0 < T) :
    isSeen (markSeen seen id T) id T' = decide (T' - T < TTL_MS) := by
  simp [isSeen, lookupSeen_markSeen_self, Nat.pos_iff_ne_zero.mp hT]

/-- C2, counterexample: the claim fails for an identifier marked at epoch
time `T = 0`.  `isSeen` returns `t && (Date.now() - t) < TTL_MS`, and the
stored timestamp `0` is falsy in JavaScript, so a query at `T' = 1`
(well inside the 24-hour window) still reports the id as not seen. -/
theorem C2_counterexample :
    (1 : Nat) - 0 < TTL_MS ∧ isSeen (markSeen [] "x" 0) "x" 1 = false := by
  constructor
  · decide
  · rfl

/-- C2 (amended): provided the mark timestamp `T` is positive (which rules
out the JavaScript falsiness of the number 0), an identifier marked seen at
time `T` via `markSeen` is reported seen by a later `isSeen` query at time
`T'` exactly when `T' - T < 24` hours; and an identifier with no entry in the
map (never marked, or pruned away) is never seen. -/
theorem C2_amended (seen : List (String × Nat)) (id : String) (T T' : Nat)
    (hT : 0 < T) (_hle : T ≤ T') :
    (isSeen (markSeen seen id T) id T' = true ↔ T' - T < TTL_MS) ∧
      (∀ (s : List (String × Nat)) (i : String) (n : Nat),
        lookupSeen s i = none → isSeen s i n = false) := by
  refine ⟨?_, ?_⟩
  · rw [isSeen_markSeen_self seen id T T' hT]
    simp
  · intro s i n h
    simp [isSeen, h]

/-- C2 witness: the amended theorem at `seen = []`, `id = "x"`, `T = 5`,
`T' = 6`. -/
theorem C2_witness :
    isSeen (markSeen [] "x" 5) "x" 6 = true := by
  have h := (C2_amended [] "x" 5 6 (by decide) (by decide)).1
  exact h.mpr (by decide)

/-! ## Request payloads and the `/ingest` orchestration state

The tweet object carried under the `data` (or, in the baseline variant,
legacy `tweet`) key of the request body.  Absent JS fields are `none`. -/

structure Tweet where
  tweet_id : Option String := none
  id : Option String := none
  url : Option String := none
  author : Option String := none
  text : Option String := none
deriving DecidableEq

structure ReqBody where
  data : Option Tweet := none
  tweet : Option Tweet := none
deriving DecidableEq

/-- JS `a || d` for an optional string `a`: a present but empty string is
falsy and falls through to the default. -/
def jsOr (o : Option String) (d : String) : String :=
  match o with
  | some s => if s = "" then d else s
  | none => d

/-- `const tweet = body?.data || body?.tweet || {}` (baseline, line 133).
Any present object is truthy, so a present `data` object wins even if its
fields are all absent. -/
def theTweet (b : ReqBody) : Tweet :=
  match b.data with
  | some t => t
  | none =>
    match b.tweet with
    | some t => t
    | none => {}

/-- `const tweetId = tweet.tweet_id || tweet.id || tweet.url || 'unknown'`
(line 134). -/
def resolveId (t : Tweet) : String :=
  jsOr t.tweet_id (jsOr t.id (jsOr t.url "unknown"))

/-- The JSON value sent by `res.status(s).json(...)`: only the fields the
handler actually writes are `some`. -/
structure Resp where
  status : Nat
  ok : Bool
  duplicate : Option Bool := none
  summary : Option String := none
  pushed : Option Bool := none
  emailed : Option Bool := none
  error : Option String := none
deriving DecidableEq

/-- Which of the three downstream calls the handler performed. -/
structure Calls where
  summarizer : Bool := false
  pusher : Bool := false
  emailer : Bool := false
deriving DecidableEq

/-- The per-request environment of the baseline `/ingest` handler: the
`Date.now()` tick, the current `SEEN` map, and the outcomes of the three
outbound collaborator calls (`fetchTweetText` never throws; the other three
awaited calls may throw, modelled as `Except` with the thrown message). -/
structure BaseEnv where
  now : Nat
  seen : List (String × Nat)
  fetchText : String → String
  summarize : Except String String
  push : Except String Bool
  email : Except String Bool

/-- Lines 137-139: `let text = tweet.text || ''; if (!text && url) text =
await fetchTweetText(url);`. -/
def resolvedText (env : BaseEnv) (b : ReqBody) : String :=
  let t := theTweet b
  let url := jsOr t.url ""
  let text0 := jsOr t.text ""
  if text0 = "" ∧ url ≠ "" then env.fetchText url else text0

/-- The baseline `POST /ingest` handler (lines 130-154).  Returns the JSON
response, the `SEEN` map after the request, and which downstream calls were
made.  A thrown error from any awaited call is caught by the top-level
`catch` and turned into a 500 response. -/
def ingestBase (env : BaseEnv) (b : ReqBody) : Resp × List (String × Nat) × Calls :=
  let tweetId := resolveId (theTweet b)
  let text := resolvedText env b
  if text = "" then
    ({ status := 400, ok := false, error := some "Could not retrieve tweet text" },
      env.seen, {})
  else if isSeen env.seen tweetId env.now then
    ({ status := 200, ok := true, duplicate := some true }, env.seen, {})
  else
    let seen' := markSeen env.seen tweetId env.now
    match env.summarize with
    | Except.error e =>
        ({ status := 500, ok := false, error := some e }, seen',
          { summarizer := true })
    | Except.ok summary =>
      match env.push with
      | Except.error e =>
          ({ status := 500, ok := false, error := some e }, seen',
            { summarizer := true, pusher := true })
      | Except.ok pushed =>
        match env.email with
        | Except.error e =>
            ({ status := 500, ok := false, error := some e }, seen',
              { summarizer := true, pusher := true, emailer := true })
        | Except.ok emailed =>
            ({ status := 200, ok := true, duplicate := some false,
               summary := some summary, pushed := some pushed,
               emailed := some emailed }, seen',
              { summarizer := true, pusher := true, emailer := true })

/-- On any request that passes the text check and is not a duplicate, the
handler's `SEEN` map is the marked map, whatever the downstream outcomes:
`markSeen` runs before the summarizer (line 143 before line 145). -/
theorem ingestBase_seen_of_marked (env : BaseEnv) (b : ReqBody)
    (htext : resolvedText env b ≠ "")
    (hdup : isSeen env.seen (resolveId (theTweet b)) env.now = false) :
    (ingestBase env b).2.1 = markSeen env.seen (resolveId (theTweet b)) env.now := by
  rcases hs : env.summarize with e | s
  · simp [ingestBase, htext, hdup, hs]
  · rcases hp : env.push with e | p
    · simp [ingestBase, htext, hdup, hs, hp]
    · rcases he : env.email with e | m <;> simp [ingestBase, htext, hdup, hs, hp, he]

/-- C3, counterexample: a fresh id `"t1"` is ingested while the summarizer
throws (`"boom"`).  The request fails with a 500, yet the id is recorded in
the `SEEN` map, and an identical retry one millisecond later is answered
with `duplicate:true` and no summarizer call — the opposite of the claim. -/
theorem C3_counterexample :
    (ingestBase
        { now := 7, seen := [], fetchText := fun _ => "",
          summarize := Except.error "boom", push := Except.ok true,
          email := Except.ok true }
        { data := some { tweet_id := some "t1", text := some "hello" } }).1.status
        = 500 ∧
    lookupSeen (ingestBase
        { now := 7, seen := [], fetchText := fun _ => "",
          summarize := Except.error "boom", push := Except.ok true,
          email := Except.ok true }
        { data := some { tweet_id := some "t1", text := some "hello" } }).2.1 "t1"
        = some 7 ∧
    (ingestBase
        { now := 8, seen := [("t1", 7)], fetchText := fun _ => "",
          summarize := Except.ok "S", push := Except.ok true,
          email := Except.ok true }
        { data := some { tweet_id := some "t1", text := some "hello" } }).1
        = { status := 200, ok := true, duplicate := some true } ∧
    (ingestBase
        { now := 8, seen := [("t1", 7)], fetchText := fun _ => "",
          summarize := Except.ok "S", push := Except.ok true,
          email := Except.ok true }
        { data := some { tweet_id := some "t1", text := some "hello" } }).2.2.summarizer
        = false := by
  refine ⟨rfl, rfl, rfl, rfl⟩

/-- C3 (amended): in the baseline variant the `SeenEntry` is created
*before* the summarizer and notifiers run, not after success: when the
request subsequently fails with a 500 (here a summarization error), the id
*is* recorded as seen, and (for a positive `Date.now()`) an immediate retry
of the same id within 24 hours *is* suppressed as a duplicate. -/
theorem C3_amended (env : BaseEnv) (b : ReqBody) (e : String)
    (htext : resolvedText env b ≠ "")
    (hdup : isSeen env.seen (resolveId (theTweet b)) env.now = false)
    (hsum : env.summarize = Except.error e) :
    (ingestBase env b).1.status = 500 ∧
    (ingestBase env b).1.error = some e ∧
    lookupSeen (ingestBase env b).2.1 (resolveId (theTweet b)) = some env.now ∧
    (0 < env.now → ∀ n', n' - env.now < TTL_MS →
      isSeen (ingestBase env b).2.1 (resolveId (theTweet b)) n' = true) := by
  have hseen := ingestBase_seen_of_marked env b htext hdup
  refine ⟨?_, ?_, ?_, ?_⟩
  · simp [ingestBase, htext, hdup, hsum]
  · simp [ingestBase, htext, hdup, hsum]
  · rw [hseen]; exact lookupSeen_markSeen_self env.seen _ env.now
  · intro hpos n' hn'
    rw [hseen, isSeen_markSeen_self env.seen _ env.now n' hpos]
    simpa using hn'

/-- C3 witness: the amended theorem at the concrete counterexample
environment (summarizer throwing `"boom"`, id `"t1"`, `Date.now() = 7`). -/
theorem C3_witness :
    (ingestBase
        { now := 7, seen := [], fetchText := fun _ => "",
          summarize := Except.error "boom", push := Except.ok true,
          email := Except.ok true }
        { data := some { tweet_id := some "t1", text := some "hello" } }).1.status
        = 500 ∧
    lookupSeen (ingestBase
        { now := 7, seen := [], fetchText := fun _ => "",
          summarize := Except.error "boom", push := Except.ok true,
          email := Except.ok true }
        { data := some { tweet_id := some "t1", text := some "hello" } }).2.1 "t1"
        = some 7 := by
  have h := C3_amended
    { now := 7, seen := [], fetchText := fun _ => "",
      summarize := Except.error "boom", push := Except.ok true,
      email := Except.ok true }
    { data := some { tweet_id := some "t1", text := some "hello" } }
    "boom" (by decide) (by decide) rfl
  exact ⟨h.1, h.2.2.1⟩

/-- C4, counterexample: the duplicate check (line 142) runs only after the
text check (line 140).  A request whose id `"u1"` is currently seen but
which carries no text and no URL is answered 400 (`Could not retrieve tweet
text`), not 200 with `duplicate:true` as the claim states. -/
theorem C4_counterexample :
    isSeen [("u1", 5)] "u1" 6 = true ∧
    resolveId (theTweet { data := some { tweet_id := some "u1" } }) = "u1" ∧
    (ingestBase
        { now := 6, seen := [("u1", 5)], fetchText := fun _ => "",
          summarize := Except.ok "S", push := Except.ok true,
          email := Except.ok true }
        { data := some { tweet_id := some "u1" } }).1
      = { status := 400, ok := false,
          error := some "Could not retrieve tweet text" } := by
  refine ⟨rfl, rfl, rfl⟩

/-- C4 (amended): for every baseline `/ingest` request *whose text resolves
non-empty* and whose resolved identifier is already seen within the 24-hour
window, the endpoint responds 200 with `ok:true, duplicate:true` and
terminates without invoking the summarizer or any notifier (and without
touching the `SEEN` map). -/
theorem C4_amended (env : BaseEnv) (b : ReqBody)
    (htext : resolvedText env b ≠ "")
    (hdup : isSeen env.seen (resolveId (theTweet b)) env.now = true) :
    (ingestBase env b).1 = { status := 200, ok := true, duplicate := some true } ∧
    (ingestBase env b).2.2 =
      { summarizer := false, pusher := false, emailer := false } ∧
    (ingestBase env b).2.1 = env.seen := by
  refine ⟨?_, ?_, ?_⟩ <;> simp [ingestBase, htext, hdup]

/-- C4 witness: the amended theorem at a concrete seen id with literal
text. -/
theorem C4_witness :
    (ingestBase
        { now := 6, seen := [("u1", 5)], fetchText := fun _ => "",
          summarize := Except.ok "S", push := Except.ok true,
          email := Except.ok true }
        { data := some { tweet_id := some "u1", text := some "hi" } }).1
      = { status := 200, ok := true, duplicate := some true } := by
  have h := C4_amended
    { now := 6, seen := [("u1", 5)], fetchText := fun _ => "",
      summarize := Except.ok "S", push := Except.ok true,
      email := Except.ok true }
    { data := some { tweet_id := some "u1", text := some "hi" } }
    (by decide) (by decide)
  exact h.1

/-- C7: in the baseline variant, when the request reaches the notifiers
(text present, not a duplicate, summarizer succeeded) and the push call has
returned (with any boolean, in particular `true`), a thrown email-transport
error `e` propagates to the top-level handler: the whole request is answered
500 with `ok:false` and `error = e`, and the response carries no `pushed`
field (the `pushed` outcome is not reported), even though the push call was
made. -/
theorem C7_confirmed (env : BaseEnv) (b : ReqBody) (s : String) (p : Bool)
    (e : String)
    (htext : resolvedText env b ≠ "")
    (hdup : isSeen env.seen (resolveId (theTweet b)) env.now = false)
    (hsum : env.summarize = Except.ok s)
    (hpush : env.push = Except.ok p)
    (hemail : env.email = Except.error e) :
    (ingestBase env b).1 = { status := 500, ok := false, error := some e } ∧
    (ingestBase env b).2.2 =
      { summarizer := true, pusher := true, emailer := true } := by
  constructor <;> simp [ingestBase, htext, hdup, hsum, hpush, hemail]

/-- C7 witness: concrete instance with a delivered push (`pushed = true`)
and an email transport throwing `"smtp down"`. -/
theorem C7_witness :
    (ingestBase
        { now := 3, seen := [], fetchText := fun _ => "",
          summarize := Except.ok "S", push := Except.ok true,
          email := Except.error "smtp down" }
        { data := some { tweet_id := some "t9", text := some "hi" } }).1
      = { status := 500, ok := false, error := some "smtp down" } := by
  have h := C7_confirmed
    { now := 3, seen := [], fetchText := fun _ => "",
      summarize := Except.ok "S", push := Except.ok true,
      email := Except.error "smtp down" }
    { data := some { tweet_id := some "t9", text := some "hi" } }
    "S" true "smtp down" (by decide) (by decide) rfl rfl rfl
  exact h.1

/-- C10, counterexample: the shared-`'unknown'` dedup breaks at epoch time
`0`.  A first id-less request processed at `Date.now() = 0` stores
`("unknown", 0)`, whose timestamp is falsy, so a second id-less request one
millisecond later is *not* answered as a duplicate: it is summarized
again. -/
theorem C10_counterexample :
    (ingestBase
        { now := 0, seen := [], fetchText := fun _ => "",
          summarize := Except.ok "S1", push := Except.ok true,
          email := Except.ok true }
        { data := some { text := some "A" } }).2.1 = [("unknown", 0)] ∧
    (1 : Nat) - 0 < TTL_MS ∧
    (ingestBase
        { now := 1, seen := [("unknown", 0)], fetchText := fun _ => "",
          summarize := Except.ok "S2", push := Except.ok true,
          email := Except.ok true }
        { data := some { text := some "B" } }).1.duplicate = some false ∧
    (ingestBase
        { now := 1, seen := [("unknown", 0)], fetchText := fun _ => "",
          summarize := Except.ok "S2", push := Except.ok true,
          email := Except.ok true }
        { data := some { text := some "B" } }).2.2.summarizer = true := by
  refine ⟨rfl, by decide, rfl, rfl⟩

/-- C10 (amended): in the baseline variant, provided the first request runs
at a positive `Date.now()`, every payload lacking `tweet_id`, `id` and `url`
is deduplicated under the single shared identifier `'unknown'`: after one
such request is processed (whatever its downstream outcomes), any later such
request within 24 hours — even with entirely different text — receives 200
with `ok:true, duplicate:true` and triggers neither the summarizer nor any
notifier. -/
theorem C10_amended (env1 env2 : BaseEnv) (b1 b2 : ReqBody)
    (hpos : 0 < env1.now)
    (hid1 : resolveId (theTweet b1) = "unknown")
    (hid2 : resolveId (theTweet b2) = "unknown")
    (ht1 : resolvedText env1 b1 ≠ "")
    (hns : isSeen env1.seen "unknown" env1.now = false)
    (hseen : env2.seen = (ingestBase env1 b1).2.1)
    (hwin : env2.now - env1.now < TTL_MS)
    (ht2 : resolvedText env2 b2 ≠ "") :
    (ingestBase env2 b2).1 = { status := 200, ok := true, duplicate := some true } ∧
    (ingestBase env2 b2).2.2 =
      { summarizer := false, pusher := false, emailer := false } := by
  have h1 : (ingestBase env1 b1).2.1 = markSeen env1.seen "unknown" env1.now := by
    have := ingestBase_seen_of_marked env1 b1 ht1 (by rwa [hid1])
    rwa [hid1] at this
  have hdup2 : isSeen env2.seen (resolveId (theTweet b2)) env2.now = true := by
    rw [hid2, hseen, h1, isSeen_markSeen_self env1.seen _ env1.now env2.now hpos]
    simpa using hwin
  have h := C4_amended env2 b2 ht2 hdup2
  exact ⟨h.1, h.2.1⟩

/-- C10 witness: the amended theorem at a concrete pair of id-less requests
at times 5 and 6 with different texts. -/
theorem C10_witness :
    (ingestBase
        { now := 6,
          seen := (ingestBase
            { now := 5, seen := [], fetchText := fun _ => "",
              summarize := Except.ok "S1", push := Except.ok true,
              email := Except.ok true }
            { data := some { text := some "A" } }).2.1,
          fetchText := fun _ => "", summarize := Except.ok "S2",
          push := Except.ok true, email := Except.ok true }
        { data := some { text := some "B" } }).1
      = { status := 200, ok := true, duplicate := some true } := by
  have h := C10_amended
    { now := 5, seen := [], fetchText := fun _ => "",
      summarize := Except.ok "S1", push := Except.ok true,
      email := Except.ok true }
    { now := 6,
      seen := (ingestBase
        { now := 5, seen := [], fetchText := fun _ => "",
          summarize := Except.ok "S1", push := Except.ok true,
          email := Except.ok true }
        { data := some { text := some "A" } }).2.1,
      fetchText := fun _ => "", summarize := Except.ok "S2",
      push := Except.ok true, email := Except.ok true }
    { data := some { text := some "A" } }
    { data := some { text := some "B" } }
    (by decide) (by decide) (by decide) (by decide) (by decide) rfl
    (by decide) (by decide)
  exact h.1

/-! ## Hardened variant: authorization and the hardened `/ingest` handler
(src/server.js lines 167-173 and 259-277). -/

/-- The hardened request: the two auth headers as `req.get` returns them
(`none` for an absent header) and the JSON body. -/
structure HardReq where
  xKey : Option String := none
  auth : Option String := none
  body : ReqBody := {}

/-- `const h = req.get('X-HillPulse-Key') || req.get('Authorization') || ''`
(line 171): an absent or empty first header falls through to the second. -/
def headerVal (r : HardReq) : String :=
  jsOr r.xKey (jsOr r.auth "")

/-- `assertAuthorized` (lines 169-173).  `INGEST_SECRET` is already
normalized by `process.env.INGEST_SECRET || ''`, so the empty string means
"no secret configured" and passes everything. -/
def assertAuthorized (secret : String) (r : HardReq) : Bool :=
  if secret = "" then true
  else (headerVal r == secret) || (headerVal r == "Bearer " ++ secret)

/-- Per-request environment of the hardened handler: the configured secret
and the outcomes of the outbound calls (no dedup, no email in this
variant). -/
structure HardEnv where
  secret : String
  fetchText : String → String
  summarize : Except String String
  push : Except String Bool

/-- Text resolution in the hardened handler (lines 264-267), identical in
shape to the baseline but reading only `body.data`. -/
def resolvedTextH (env : HardEnv) (b : ReqBody) : String :=
  let t := b.data.getD {}
  let url := jsOr t.url ""
  let text0 := jsOr t.text ""
  if text0 = "" ∧ url ≠ "" then env.fetchText url else text0

/-- The hardened `POST /ingest` handler (lines 259-277).  Note line 263:
`const tweet = body.data || {}` — the legacy `tweet` key is *not* read in
this variant.  `res.json(...)` without an explicit status answers 200. -/
def ingestHard (env : HardEnv) (r : HardReq) : Resp × Calls :=
  if assertAuthorized env.secret r = false then
    ({ status := 401, ok := false, error := some "Unauthorized" }, {})
  else
    let text := resolvedTextH env r.body
    if text = "" then
      ({ status := 400, ok := false, error := some "Missing tweet text" }, {})
    else
      match env.summarize with
      | Except.error e =>
          ({ status := 500, ok := false, error := some e },
            { summarizer := true })
      | Except.ok summary =>
        match env.push with
        | Except.error e =>
            ({ status := 500, ok := false, error := some e },
              { summarizer := true, pusher := true })
        | Except.ok pushed =>
            ({ status := 200, ok := true, summary := some summary,
               pushed := some pushed }, { summarizer := true, pusher := true })

/-- C8: in the hardened variant, when a shared secret is configured
(non-empty after the `|| ''` normalization), every request neither of whose
auth header values equals the secret or `"Bearer " ++ secret` is answered
401 `ok:false, error:"Unauthorized"` with no downstream call; and when no
secret is configured every request passes `assertAuthorized`. -/
theorem C8_confirmed (env : HardEnv) (r : HardReq) :
    (env.secret ≠ "" →
      (∀ v, r.xKey = some v → v ≠ env.secret ∧ v ≠ "Bearer " ++ env.secret) →
      (∀ v, r.auth = some v → v ≠ env.secret ∧ v ≠ "Bearer " ++ env.secret) →
      (ingestHard env r).1
          = { status := 401, ok := false, error := some "Unauthorized" } ∧
      (ingestHard env r).2 =
        { summarizer := false, pusher := false, emailer := false }) ∧
    (env.secret = "" → assertAuthorized env.secret r = true) := by
  constructor
  · intro hsec hx ha
    have hbearer : "Bearer " ++ env.secret ≠ "" := by
      intro h
      have := congrArg String.data h
      simp [String.data_append] at this
    have hhv : headerVal r ≠ env.secret ∧ headerVal r ≠ "Bearer " ++ env.secret := by
      unfold headerVal jsOr
      rcases hxk : r.xKey with _ | vx
      · rcases hak : r.auth with _ | va
        · exact ⟨fun h => hsec h.symm, fun h => hbearer h.symm⟩
        · by_cases hva : va = ""
          · simp only [hva, if_pos rfl]
            exact ⟨fun h => hsec h.symm, fun h => hbearer h.symm⟩
          · simp only [if_neg hva]
            exact ha va hak
      · by_cases hvx : vx = ""
        · simp only [hvx, if_pos rfl]
          rcases hak : r.auth with _ | va
          · exact ⟨fun h => hsec h.symm, fun h => hbearer h.symm⟩
          · by_cases hva : va = ""
            · simp only [hva, if_pos rfl]
              exact ⟨fun h => hsec h.symm, fun h => hbearer h.symm⟩
            · simp only [if_neg hva]
              exact ha va hak
        · simp only [if_neg hvx]
          exact hx vx hxk
    have hauth : assertAuthorized env.secret r = false := by
      unfold assertAuthorized
      rw [if_neg hsec]
      simp [hhv.1, hhv.2]
    constructor <;> simp [ingestHard, hauth]
  · intro hsec
    simp [assertAuthorized, hsec]

/-- C8 witness: the spec scenario — secret `"s3"` configured, request omits
both auth headers — is answered 401 Unauthorized; and with no secret
configured the same request passes authorization. -/
theorem C8_witness :
    (ingestHard
        { secret := "s3", fetchText := fun _ => "",
          summarize := Except.ok "S", push := Except.ok true }
        { body := { data := some { text := some "hi" } } }).1
      = { status := 401, ok := false, error := some "Unauthorized" } ∧
    assertAuthorized ""
      { body := { data := some { text := some "hi" } } } = true := by
  constructor
  · have h := (C8_confirmed
      { secret := "s3", fetchText := fun _ => "",
        summarize := Except.ok "S", push := Except.ok true }
      { body := { data := some { text := some "hi" } } }).1
      (by decide) (by intro v hv; cases hv) (by intro v hv; cases hv)
    exact h.1
  · exact (C8_confirmed
      { secret := "", fetchText := fun _ => "",
        summarize := Except.ok "S", push := Except.ok true }
      { body := { data := some { text := some "hi" } } }).2 rfl

/-- C9, counterexample: the hardened handler reads only `body.data`
(line 263), so the same tweet payload is processed when supplied under
`data` (200 with a summary) but rejected 400 (`Missing tweet text`) when
supplied under the legacy `tweet` key — the two are not processed
identically in that variant. -/
theorem C9_counterexample :
    (ingestHard
        { secret := "", fetchText := fun _ => "",
          summarize := Except.ok "S", push := Except.ok true }
        { body := { data := some { text := some "hi" } } }).1.status = 200 ∧
    (ingestHard
        { secret := "", fetchText := fun _ => "",
          summarize := Except.ok "S", push := Except.ok true }
        { body := { tweet := some { text := some "hi" } } }).1
      = { status := 400, ok := false, error := some "Missing tweet text" } := by
  exact ⟨rfl, rfl⟩

/-- C9 (amended): the baseline variant processes a payload supplied under
the legacy `tweet` key identically to the same payload under `data`; the
hardened variant ignores the `tweet` key entirely, treating such a request
exactly like one with an empty body. -/
theorem C9_amended :
    (∀ (env : BaseEnv) (t : Tweet),
      ingestBase env { data := some t } = ingestBase env { data := none, tweet := some t }) ∧
    (∀ (env : HardEnv) (t : Tweet) (xk au : Option String),
      ingestHard env { xKey := xk, auth := au, body := { tweet := some t } } =
        ingestHard env { xKey := xk, auth := au, body := {} }) := by
  exact ⟨fun env t => rfl, fun env t xk au => rfl⟩

/-! ## Summarizer with retry (hardened variant, src/server.js lines 176-214)

One attempt of the `while` loop body is driven by the outcome of the
`fetch`: either the fetch itself rejects, or it yields a response with a
status, an `ok` flag, the `res.text()` body used in the non-ok error message
(already defaulted to `''` by its `.catch`), and the `res.json()` outcome
carrying the extracted candidate text (`none` models a missing or malformed
candidate shape, which line 201 defaults to `''`). -/

inductive AttemptRes where
  | netErr (msg : String)
  | resp (status : Nat) (ok : Bool) (bodyText : String)
      (json : Except String (Option String))

/-- The body of one `try` block iteration (lines 189-202): 503 throws
`'Gemini overload 503'`, any other non-ok status throws
`'Gemini error <status>: <body>'`, a rejected `res.json()` rethrows, and a
successful parse returns the trimmed candidate text (empty when the shape is
missing). -/
def attemptOutcome : AttemptRes → Except String String
  | AttemptRes.netErr m => Except.error m
  | AttemptRes.resp status ok bodyText json =>
    if status = 503 then Except.error "Gemini overload 503"
    else if ok = false then
      Except.error ("Gemini error " ++ toString status ++ ": " ++ bodyText)
    else
      match json with
      | Except.error m => Except.error m
      | Except.ok o => Except.ok (o.getD "").trim

/-- `const MAX_RETRIES = 3` (line 184). -/
def MAX_RETRIES : Nat := 3

/-- The `while (attempt <= MAX_RETRIES)` loop (lines 188-213), with
`fuel = MAX_RETRIES + 1 - attempt` making the recursion structural.  On a
thrown error the attempt counter advances and, when another attempt remains
(`attempt <= MAX_RETRIES` after the increment, i.e. `1 ≤ fuel`), a backoff
delay of `1000 * 2 ^ (attempt - 1)` ms is awaited (recorded in the delay
list).  When the loop exhausts, line 213 throws
`'Gemini failed after 4 attempts: <last error>'`.  Returns the overall
outcome, the number of attempts made, and the list of awaited delays. -/
def gLoop (att : Nat → AttemptRes) :
    Nat → Nat → String → List Nat → Except String String × Nat × List Nat
  | 0, attempt, lastErr, delays =>
      (Except.error
        ("Gemini failed after " ++ toString (MAX_RETRIES + 1) ++ " attempts: "
          ++ lastErr), attempt, delays)
  | fuel + 1, attempt, _, delays =>
    match attemptOutcome (att attempt) with
    | Except.ok v => (Except.ok v, attempt + 1, delays)
    | Except.error e =>
        if 1 ≤ fuel then
          gLoop att fuel (attempt + 1) e (delays ++ [1000 * 2 ^ attempt])
        else gLoop att fuel (attempt + 1) e delays

/-- `callGeminiSummary` of the hardened variant (lines 176-214): throws
`'Missing GEMINI_API_KEY'` when no key is configured, otherwise runs the
retry loop starting at attempt 0. -/
def callGeminiSummaryH (hasKey : Bool) (att : Nat → AttemptRes) :
    Except String String × Nat × List Nat :=
  if hasKey then gLoop att (MAX_RETRIES + 1) 0 "" []
  else (Except.error "Missing GEMINI_API_KEY", 0, [])

/-- C1: in the hardened summarizer, (a) when attempts 0-3 all fail (HTTP 503
or any thrown error), exactly 4 attempts are made with backoff delays of
1000, 2000 and 4000 ms before the 2nd, 3rd and 4th attempts, and the call
then fails with `'Gemini failed after 4 attempts: '` followed by the last
attempt's error message, retrying no further; (b) when the first `k`
attempts (`k < 4`) fail and attempt `k` succeeds, the call returns that
attempt's value after `k + 1` attempts and only the first `k` backoff
delays. -/
theorem C1_confirmed (att : Nat → AttemptRes) :
    ((∀ i, i < 4 → ∃ e, attemptOutcome (att i) = Except.error e) →
      ∃ e3, attemptOutcome (att 3) = Except.error e3 ∧
        callGeminiSummaryH true att =
          (Except.error ("Gemini failed after 4 attempts: " ++ e3), 4,
            [1000, 2000, 4000])) ∧
    (∀ k, k < 4 → (∀ i, i < k → ∃ e, attemptOutcome (att i) = Except.error e) →
      ∀ v, attemptOutcome (att k) = Except.ok v →
        callGeminiSummaryH true att =
          (Except.ok v, k + 1, List.take k [1000, 2000, 4000])) := by
  have hmsg : ("Gemini failed after " ++ toString (MAX_RETRIES + 1)
      ++ " attempts: " : String) = "Gemini failed after 4 attempts: " := by
    decide
  constructor
  · intro h
    obtain ⟨e0, h0⟩ := h 0 (by omega)
    obtain ⟨e1, h1⟩ := h 1 (by omega)
    obtain ⟨e2, h2⟩ := h 2 (by omega)
    obtain ⟨e3, h3⟩ := h 3 (by omega)
    refine ⟨e3, h3, ?_⟩
    show gLoop att 4 0 "" [] = _
    rw [show (4 : Nat) = 3 + 1 from rfl, gLoop, h0]
    norm_num
    rw [gLoop, h1]
    norm_num
    rw [gLoop, h2]
    norm_num
    rw [gLoop, h3]
    norm_num
    rw [gLoop, hmsg]
  · intro k hk hfail v hv
    interval_cases k
    · show gLoop att 4 0 "" [] = _
      rw [show (4 : Nat) = 3 + 1 from rfl, gLoop, hv]
      rfl
    · obtain ⟨e0, h0⟩ := hfail 0 (by omega)
      show gLoop att 4 0 "" [] = _
      rw [show (4 : Nat) = 3 + 1 from rfl, gLoop, h0]
      norm_num
      rw [gLoop, hv]
    · obtain ⟨e0, h0⟩ := hfail 0 (by omega)
      obtain ⟨e1, h1⟩ := hfail 1 (by omega)
      show gLoop att 4 0 "" [] = _
      rw [show (4 : Nat) = 3 + 1 from rfl, gLoop, h0]
      norm_num
      rw [gLoop, h1]
      norm_num
      rw [gLoop, hv]
    · obtain ⟨e0, h0⟩ := hfail 0 (by omega)
      obtain ⟨e1, h1⟩ := hfail 1 (by omega)
      obtain ⟨e2, h2⟩ := hfail 2 (by omega)
      show gLoop att 4 0 "" [] = _
      rw [show (4 : Nat) = 3 + 1 from rfl, gLoop, h0]
      norm_num
      rw [gLoop, h1]
      norm_num
      rw [gLoop, h2]
      norm_num
      rw [gLoop, hv]

/-- C1 witness: a server answering 503 on every attempt is retried 3 extra
times with delays 1s, 2s, 4s and then fails with the last overload
message. -/
theorem C1_witness :
    callGeminiSummaryH true
        (fun _ => AttemptRes.resp 503 false "" (Except.ok none)) =
      (Except.error "Gemini failed after 4 attempts: Gemini overload 503", 4,
        [1000, 2000, 4000]) := by
  have h := (C1_confirmed
      (fun _ => AttemptRes.resp 503 false "" (Except.ok none))).1
    (fun i _ => ⟨"Gemini overload 503", rfl⟩)
  obtain ⟨e3, he3, hr⟩ := h
  have he : e3 = "Gemini overload 503" := by
    have h2 : Except.error (α := String) "Gemini overload 503"
        = Except.error e3 := by rw [← he3]; rfl
    exact (Except.error.inj h2).symm
  rw [he] at hr
  exact hr

/-! ## Text Resolver (`fetchTweetText`, src/server.js lines 27-59 baseline
and 217-240 hardened; the two bodies are identical)

Character-level processing is modelled on `List Char`.  `replaceAll`
embeds JavaScript `String.replace(/pat/g, r)` for a literal pattern:
leftmost-match, non-overlapping, the replacement text is not rescanned
within the same pass.  `stripTags` embeds `.replace(/<[^>]+>/g, '')` and
`extractFragment` embeds `html.match(/<p[^>]*>(.*?)<\/p>/)` (first match,
first capture group; `.` does not match line terminators).  The recursions
consume more than one character per step, so they are written with an
explicit fuel initialized to the list length, keeping every definition
structural (hence kernel-computable). -/

/-- Boolean "is prefix of" on character lists. -/
def isPre : List Char → List Char → Bool
  | [], _ => true
  | _ :: _, [] => false
  | a :: as, b :: bs => a == b && isPre as bs

/-- Boolean "occurs as a contiguous subsequence of" on character lists. -/
def containsSeq (p : List Char) : List Char → Bool
  | [] => isPre p []
  | c :: cs => isPre p (c :: cs) || containsSeq p cs

/-- Fueled global replacement: at each position, if the (non-empty) literal
pattern `p` matches, emit `r` and continue after the matched occurrence,
otherwise emit the character and move one position right — exactly the JS
`/g` semantics for a literal pattern. -/
def replaceAllF (p r : List Char) : Nat → List Char → List Char
  | _, [] => []
  | 0, c :: cs => c :: cs
  | fuel + 1, c :: cs =>
    if p ≠ [] ∧ isPre p (c :: cs) = true then
      r ++ replaceAllF p r fuel ((c :: cs).drop p.length)
    else c :: replaceAllF p r fuel cs

/-- `String.replace(/p/g, r)` for a literal pattern `p`. -/
def replaceAll (p r l : List Char) : List Char :=
  replaceAllF p r l.length l

/-- Fueled embedding of `.replace(/<[^>]+>/g, '')`: at a `'<'`, a match
needs at least one non-`'>'` character and then a `'>'`; on a match the
whole tag is dropped, otherwise the `'<'` survives and scanning restarts one
position right. -/
def stripTagsF : Nat → List Char → List Char
  | _, [] => []
  | 0, c :: cs => c :: cs
  | fuel + 1, c :: cs =>
    if c = '<' then
      match cs.dropWhile (fun x => x != '>'), cs.takeWhile (fun x => x != '>') with
      | '>' :: rest2, _ :: _ => stripTagsF fuel rest2
      | _, _ => c :: stripTagsF fuel cs
    else c :: stripTagsF fuel cs

/-- Tag stripping (line 39 / line 227). -/
def stripTags (l : List Char) : List Char :=
  stripTagsF l.length l

/-- The apostrophe character, `&#39;`'s decoding. -/
def aposC : Char := Char.ofNat 39

/-- The five entity patterns of lines 40-44. -/
def ampP : List Char := ['&', 'a', 'm', 'p', ';']

def ltP : List Char := ['&', 'l', 't', ';']

def gtP : List Char := ['&', 'g', 't', ';']

def quotP : List Char := ['&', 'q', 'u', 'o', 't', ';']

def aposP : List Char := ['&', '#', '3', '9', ';']

/-- The entity-decoding chain of lines 40-44: five sequential global
replacements, in source order `&amp; &lt; &gt; &quot; &#39;`. -/
def decodeEntities (l : List Char) : List Char :=
  replaceAll aposP [aposC]
    (replaceAll quotP ['"']
      (replaceAll gtP ['>']
        (replaceAll ltP ['<']
          (replaceAll ampP ['&'] l))))

/-- The whole post-processing applied to an extracted paragraph fragment
(lines 38-44): strip `<...>` tags, then decode the five entities. -/
def postprocess (frag : List Char) : List Char :=
  decodeEntities (stripTags frag)

/-- Modelled from the spec's words ("correctly decodes each occurrence …
each source occurrence being decoded exactly once, no cascaded re-decoding
of the replacement text"): a single left-to-right pass replacing each
entity occurrence of the source once; replacement characters are emitted,
never rescanned.  This is the claim-side definition C5 compares the code's
`decodeEntities` against. -/
def decodeOnceF : Nat → List Char → List Char
  | _, [] => []
  | 0, c :: cs => c :: cs
  | fuel + 1, c :: cs =>
    if isPre ampP (c :: cs) = true then '&' :: decodeOnceF fuel ((c :: cs).drop 5)
    else if isPre ltP (c :: cs) = true then '<' :: decodeOnceF fuel ((c :: cs).drop 4)
    else if isPre gtP (c :: cs) = true then '>' :: decodeOnceF fuel ((c :: cs).drop 4)
    else if isPre quotP (c :: cs) = true then '"' :: decodeOnceF fuel ((c :: cs).drop 6)
    else if isPre aposP (c :: cs) = true then aposC :: decodeOnceF fuel ((c :: cs).drop 5)
    else c :: decodeOnceF fuel cs

/-- Once-only entity decoding (spec side of C5). -/
def decodeOnce (l : List Char) : List Char :=
  decodeOnceF l.length l

/-- Whether the list contains a fragment matching `/<[^>]+>/` — a `'<'`
followed by at least one non-`'>'` character and then a `'>'`. -/
def hasTag : List Char → Bool
  | [] => false
  | c :: cs =>
    (c == '<' && !(cs.takeWhile (fun x => x != '>')).isEmpty
        && !(cs.dropWhile (fun x => x != '>')).isEmpty) || hasTag cs

/-- JS line terminators, which `.` in a regex without the `s` flag does not
match. -/
def isLineTerm (c : Char) : Bool :=
  c == '\n' || c == '\r' || c == Char.ofNat 0x2028 || c == Char.ofNat 0x2029

/-- The closing literal `</p>` of the extraction regex. -/
def closeP : List Char := ['<', '/', 'p', '>']

/-- The lazy capture group `(.*?)` followed by `</p>`: extend the capture
one (non-line-terminator) character at a time until `</p>` matches. -/
def tryCapture : List Char → Option (List Char)
  | [] => none
  | c :: cs =>
    if isPre closeP (c :: cs) = true then some []
    else if isLineTerm c then none
    else (tryCapture cs).map (fun t => c :: t)

/-- After `<p`, the `[^>]*>` part of the opening tag: skip non-`'>'`
characters; the tag closes at the first `'>'`. -/
def pBodyAfterTag (rest : List Char) : Option (List Char) :=
  match rest.dropWhile (fun x => x != '>') with
  | '>' :: body => some body
  | _ => none

/-- `html.match(/<p[^>]*>(.*?)<\/p>/)`'s first capture group (line 36 /
line 225): scan left to right for a position where the whole regex matches;
on failure at a position, rescanning resumes one character right. -/
def extractFragment : List Char → Option (List Char)
  | [] => none
  | c :: cs =>
    (if c = '<' then
      match cs with
      | 'p' :: rest =>
        (match pBodyAfterTag rest with
         | some body => tryCapture body
         | none => none)
      | _ => none
    else none) <|> extractFragment cs

/-! Equation lemmas for the fueled definitions: the fuel is irrelevant as
soon as it covers the list length. -/

theorem replaceAllF_fuel (p r : List Char) :
    ∀ f1 f2 l, l.length ≤ f1 → l.length ≤ f2 →
      replaceAllF p r f1 l = replaceAllF p r f2 l := by
  intro f1
  induction f1 with
  | zero =>
      intro f2 l h1 _
      have hl : l = [] := List.eq_nil_of_length_eq_zero (Nat.le_zero.mp h1)
      subst hl
      cases f2 <;> rfl
  | succ f ih =>
      intro f2 l h1 h2
      cases l with
      | nil => cases f2 <;> rfl
      | cons c cs =>
        cases f2 with
        | zero => simp at h2
        | succ g =>
          simp only [replaceAllF]
          by_cases hc : p ≠ [] ∧ isPre p (c :: cs) = true
          · rw [if_pos hc, if_pos hc]
            have hp : 1 ≤ p.length := by
              cases hp2 : p with
              | nil => exact absurd hp2 hc.1
              | cons a as => simp
            have hlen : ((c :: cs).drop p.length).length ≤ f := by
              simp only [List.length_drop, List.length_cons]
              simp only [List.length_cons] at h1
              omega
            have hlen2 : ((c :: cs).drop p.length).length ≤ g := by
              simp only [List.length_drop, List.length_cons]
              simp only [List.length_cons] at h2
              omega
            rw [ih g _ hlen hlen2]
          · rw [if_neg hc, if_neg hc]
            have hf : cs.length ≤ f := by
              simp only [List.length_cons] at h1; omega
            have hg : cs.length ≤ g := by
              simp only [List.length_cons] at h2; omega
            rw [ih g cs hf hg]

theorem replaceAll_pos (p r : List Char) (c : Char) (cs : List Char)
    (hp : p ≠ []) (h : isPre p (c :: cs) = true) :
    replaceAll p r (c :: cs) = r ++ replaceAll p r ((c :: cs).drop p.length) := by
  have hp1 : 1 ≤ p.length := by
    cases hp2 : p with
    | nil => exact absurd hp2 hp
    | cons a as => simp
  show replaceAllF p r (cs.length + 1) (c :: cs) = _
  simp only [replaceAllF, if_pos (And.intro hp h)]
  congr 1
  exact replaceAllF_fuel p r cs.length ((c :: cs).drop p.length).length
    ((c :: cs).drop p.length)
    (by simp only [List.length_drop, List.length_cons]; omega) le_rfl

theorem replaceAll_neg' (p r : List Char) (c : Char) (cs : List Char)
    (h : isPre p (c :: cs) = false) :
    replaceAll p r (c :: cs) = c :: replaceAll p r cs := by
  show replaceAllF p r (cs.length + 1) (c :: cs) = _
  have hcond : ¬ (p ≠ [] ∧ isPre p (c :: cs) = true) := by
    rintro ⟨-, hpre⟩
    rw [h] at hpre
    exact Bool.false_ne_true hpre
  simp only [replaceAllF, if_neg hcond]
  rfl

theorem containsSeq_cons_false {p : List Char} {c : Char} {cs : List Char}
    (h : containsSeq p (c :: cs) = false) :
    isPre p (c :: cs) = false ∧ containsSeq p cs = false := by
  simpa [containsSeq, Bool.or_eq_false_iff] using h

theorem containsSeq_false_of_append {p : List Char} :
    ∀ x t : List Char, containsSeq p (x ++ t) = false → containsSeq p t = false := by
  intro x
  induction x with
  | nil => exact fun t h => h
  | cons c cs ih => exact fun t h => ih t (containsSeq_cons_false h).2

/-- If the pattern never occurs in the list, the pass is the identity. -/
theorem replaceAll_id (p r : List Char) :
    ∀ l, containsSeq p l = false → replaceAll p r l = l := by
  intro l
  induction l with
  | nil => intro _; rfl
  | cons c cs ih =>
      intro h
      obtain ⟨h1, h2⟩ := containsSeq_cons_false h
      rw [replaceAll_neg' p r c cs h1, ih h2]

theorem isPre_iff (p : List Char) : ∀ l, isPre p l = true ↔ ∃ t, l = p ++ t := by
  induction p with
  | nil => intro l; exact ⟨fun _ => ⟨l, rfl⟩, fun _ => rfl⟩
  | cons a as ih =>
      intro l
      cases l with
      | nil => simp [isPre]
      | cons b bs =>
        simp only [isPre, Bool.and_eq_true, beq_iff_eq]
        constructor
        · rintro ⟨rfl, h⟩
          obtain ⟨t, rfl⟩ := (ih bs).mp h
          exact ⟨t, rfl⟩
        · rintro ⟨t, ht⟩
          obtain ⟨rfl, rfl⟩ := List.cons.inj ht
          exact ⟨rfl, (ih (as ++ t)).mpr ⟨t, rfl⟩⟩

theorem isPre_head_false {a c : Char} (as cs : List Char) (h : ¬ a = c) :
    isPre (a :: as) (c :: cs) = false := by
  simp [isPre, beq_eq_false_iff_ne.mpr h]

/-- A pass whose replacement is the single character `rc` cannot create a
prefix `w` avoiding `rc` that was not already there. -/
theorem isPre_false_replaceAll (p : List Char) (hp : p ≠ []) (rc : Char) :
    ∀ s w : List Char, (∀ ch ∈ w, ch ≠ rc) → isPre w s = false →
      isPre w (replaceAll p [rc] s) = false := by
  intro s
  induction s with
  | nil => intro w _ h; simp only [replaceAll, replaceAllF] at h ⊢; exact h
  | cons c cs ih =>
      intro w hw h
      by_cases hm : isPre p (c :: cs) = true
      · rw [replaceAll_pos p [rc] c cs hp hm]
        cases w with
        | nil => simp [isPre] at h
        | cons a w' =>
          have ha : a ≠ rc := hw a (by simp)
          simp [isPre, beq_eq_false_iff_ne.mpr ha]
      · rw [replaceAll_neg' p [rc] c cs (by simpa using hm)]
        cases w with
        | nil => simp [isPre] at h
        | cons a w' =>
          by_cases hac : a = c
          · subst hac
            have h' : isPre w' cs = false := by simpa [isPre] using h
            have hres := ih w' (fun ch hch => hw ch (by simp [hch])) h'
            simp [isPre, hres]
          · simp [isPre, beq_eq_false_iff_ne.mpr hac]

theorem decodeOnceF_fuel :
    ∀ f1 f2 l, l.length ≤ f1 → l.length ≤ f2 →
      decodeOnceF f1 l = decodeOnceF f2 l := by
  intro f1
  induction f1 with
  | zero =>
      intro f2 l h1 _
      have hl : l = [] := List.eq_nil_of_length_eq_zero (Nat.le_zero.mp h1)
      subst hl; cases f2 <;> rfl
  | succ f ih =>
      intro f2 l h1 h2
      cases l with
      | nil => cases f2 <;> rfl
      | cons c cs =>
        cases f2 with
        | zero => simp at h2
        | succ g =>
          simp only [List.length_cons] at h1 h2
          simp only [decodeOnceF]
          split_ifs <;> refine congrArg _ (ih g _ ?_ ?_) <;>
            (try simp only [List.length_drop, List.length_cons]) <;> omega

/-- The last three passes of the decoding chain. -/
def decodeTail3 (l : List Char) : List Char :=
  replaceAll aposP [aposC] (replaceAll quotP ['"'] (replaceAll gtP ['>'] l))

/-- The last four passes of the decoding chain (everything after the
`&amp;` pass), so that `decodeEntities l` is definitionally
`decodeTail (replaceAll ampP ['&'] l)`. -/
def decodeTail (l : List Char) : List Char :=
  decodeTail3 (replaceAll ltP ['<'] l)

theorem decodeTail3_cons (c : Char) (hc : ¬ c = '&') (X : List Char) :
    decodeTail3 (c :: X) = c :: decodeTail3 X := by
  unfold decodeTail3
  rw [replaceAll_neg' gtP ['>'] c X
    (isPre_head_false ['g', 't', ';'] X fun h => hc h.symm)]
  rw [replaceAll_neg' quotP ['"'] c _
    (isPre_head_false ['q', 'u', 'o', 't', ';'] _ fun h => hc h.symm)]
  rw [replaceAll_neg' aposP [aposC] c _
    (isPre_head_false ['#', '3', '9', ';'] _ fun h => hc h.symm)]

theorem decodeTail_cons_ne (c : Char) (hc : ¬ c = '&') (X : List Char) :
    decodeTail (c :: X) = c :: decodeTail X := by
  unfold decodeTail
  rw [replaceAll_neg' ltP ['<'] c X
    (isPre_head_false ['l', 't', ';'] X fun h => hc h.symm)]
  exact decodeTail3_cons c hc _

theorem decodeTail_lt (t : List Char) :
    decodeTail (ltP ++ t) = '<' :: decodeTail t := by
  unfold decodeTail
  have h1 : replaceAll ltP ['<'] (ltP ++ t) = '<' :: replaceAll ltP ['<'] t := by
    rw [show ltP ++ t = '&' :: 'l' :: 't' :: ';' :: t from rfl]
    rw [replaceAll_pos ltP ['<'] '&' ('l' :: 't' :: ';' :: t) (by decide) rfl]
    rfl
  rw [h1]
  exact decodeTail3_cons '<' (by decide) _

theorem decodeTail_gt (t : List Char) :
    decodeTail (gtP ++ t) = '>' :: decodeTail t := by
  unfold decodeTail decodeTail3
  have h1 : replaceAll ltP ['<'] (gtP ++ t)
      = '&' :: 'g' :: 't' :: ';' :: replaceAll ltP ['<'] t := by
    rw [show gtP ++ t = '&' :: 'g' :: 't' :: ';' :: t from rfl]
    rw [replaceAll_neg' ltP ['<'] '&' ('g' :: 't' :: ';' :: t) rfl,
      replaceAll_neg' ltP ['<'] 'g' _ rfl,
      replaceAll_neg' ltP ['<'] 't' _ rfl, replaceAll_neg' ltP ['<'] ';' _ rfl]
  have h2 : ∀ X : List Char, replaceAll gtP ['>'] ('&' :: 'g' :: 't' :: ';' :: X)
      = '>' :: replaceAll gtP ['>'] X := by
    intro X
    rw [replaceAll_pos gtP ['>'] '&' ('g' :: 't' :: ';' :: X) (by decide) rfl]
    rfl
  rw [h1, h2]
  rw [replaceAll_neg' quotP ['"'] '>' _ rfl, replaceAll_neg' aposP [aposC] '>' _ rfl]

theorem decodeTail_quot (t : List Char) :
    decodeTail (quotP ++ t) = '"' :: decodeTail t := by
  unfold decodeTail decodeTail3
  have h1 : replaceAll ltP ['<'] (quotP ++ t)
      = '&' :: 'q' :: 'u' :: 'o' :: 't' :: ';' :: replaceAll ltP ['<'] t := by
    rw [show quotP ++ t = '&' :: 'q' :: 'u' :: 'o' :: 't' :: ';' :: t from rfl]
    rw [replaceAll_neg' ltP ['<'] '&' ('q' :: 'u' :: 'o' :: 't' :: ';' :: t) rfl,
      replaceAll_neg' ltP ['<'] 'q' _ rfl,
      replaceAll_neg' ltP ['<'] 'u' _ rfl, replaceAll_neg' ltP ['<'] 'o' _ rfl,
      replaceAll_neg' ltP ['<'] 't' _ rfl, replaceAll_neg' ltP ['<'] ';' _ rfl]
  have h2 : ∀ X : List Char,
      replaceAll gtP ['>'] ('&' :: 'q' :: 'u' :: 'o' :: 't' :: ';' :: X)
      = '&' :: 'q' :: 'u' :: 'o' :: 't' :: ';' :: replaceAll gtP ['>'] X := by
    intro X
    rw [replaceAll_neg' gtP ['>'] '&' ('q' :: 'u' :: 'o' :: 't' :: ';' :: X) rfl,
      replaceAll_neg' gtP ['>'] 'q' _ rfl,
      replaceAll_neg' gtP ['>'] 'u' _ rfl, replaceAll_neg' gtP ['>'] 'o' _ rfl,
      replaceAll_neg' gtP ['>'] 't' _ rfl, replaceAll_neg' gtP ['>'] ';' _ rfl]
  have h3 : ∀ X : List Char,
      replaceAll quotP ['"'] ('&' :: 'q' :: 'u' :: 'o' :: 't' :: ';' :: X)
      = '"' :: replaceAll quotP ['"'] X := by
    intro X
    rw [replaceAll_pos quotP ['"'] '&' ('q' :: 'u' :: 'o' :: 't' :: ';' :: X)
      (by decide) rfl]
    rfl
  rw [h1, h2, h3, replaceAll_neg' aposP [aposC] '"' _ rfl]

theorem decodeTail_apos (t : List Char) :
    decodeTail (aposP ++ t) = aposC :: decodeTail t := by
  unfold decodeTail decodeTail3
  have h1 : replaceAll ltP ['<'] (aposP ++ t)
      = '&' :: '#' :: '3' :: '9' :: ';' :: replaceAll ltP ['<'] t := by
    rw [show aposP ++ t = '&' :: '#' :: '3' :: '9' :: ';' :: t from rfl]
    rw [replaceAll_neg' ltP ['<'] '&' ('#' :: '3' :: '9' :: ';' :: t) rfl,
      replaceAll_neg' ltP ['<'] '#' _ rfl,
      replaceAll_neg' ltP ['<'] '3' _ rfl, replaceAll_neg' ltP ['<'] '9' _ rfl,
      replaceAll_neg' ltP ['<'] ';' _ rfl]
  have h2 : ∀ X : List Char,
      replaceAll gtP ['>'] ('&' :: '#' :: '3' :: '9' :: ';' :: X)
      = '&' :: '#' :: '3' :: '9' :: ';' :: replaceAll gtP ['>'] X := by
    intro X
    rw [replaceAll_neg' gtP ['>'] '&' ('#' :: '3' :: '9' :: ';' :: X) rfl,
      replaceAll_neg' gtP ['>'] '#' _ rfl,
      replaceAll_neg' gtP ['>'] '3' _ rfl, replaceAll_neg' gtP ['>'] '9' _ rfl,
      replaceAll_neg' gtP ['>'] ';' _ rfl]
  have h3 : ∀ X : List Char,
      replaceAll quotP ['"'] ('&' :: '#' :: '3' :: '9' :: ';' :: X)
      = '&' :: '#' :: '3' :: '9' :: ';' :: replaceAll quotP ['"'] X := by
    intro X
    rw [replaceAll_neg' quotP ['"'] '&' ('#' :: '3' :: '9' :: ';' :: X) rfl,
      replaceAll_neg' quotP ['"'] '#' _ rfl,
      replaceAll_neg' quotP ['"'] '3' _ rfl, replaceAll_neg' quotP ['"'] '9' _ rfl,
      replaceAll_neg' quotP ['"'] ';' _ rfl]
  have h4 : ∀ X : List Char,
      replaceAll aposP [aposC] ('&' :: '#' :: '3' :: '9' :: ';' :: X)
      = aposC :: replaceAll aposP [aposC] X := by
    intro X
    rw [replaceAll_pos aposP [aposC] '&' ('#' :: '3' :: '9' :: ';' :: X)
      (by decide) rfl]
    rfl
  rw [h1, h2, h3, h4]

theorem decodeOnce_amp (t : List Char) :
    decodeOnce (ampP ++ t) = '&' :: decodeOnce t :=
  congrArg (List.cons '&')
    (decodeOnceF_fuel (t.length + 4) t.length t (by omega) le_rfl)

theorem decodeOnce_lt (t : List Char) :
    decodeOnce (ltP ++ t) = '<' :: decodeOnce t :=
  congrArg (List.cons '<')
    (decodeOnceF_fuel (t.length + 3) t.length t (by omega) le_rfl)

theorem decodeOnce_gt (t : List Char) :
    decodeOnce (gtP ++ t) = '>' :: decodeOnce t :=
  congrArg (List.cons '>')
    (decodeOnceF_fuel (t.length + 3) t.length t (by omega) le_rfl)

theorem decodeOnce_quot (t : List Char) :
    decodeOnce (quotP ++ t) = '"' :: decodeOnce t :=
  congrArg (List.cons '"')
    (decodeOnceF_fuel (t.length + 5) t.length t (by omega) le_rfl)

theorem decodeOnce_apos (t : List Char) :
    decodeOnce (aposP ++ t) = aposC :: decodeOnce t :=
  congrArg (List.cons aposC)
    (decodeOnceF_fuel (t.length + 4) t.length t (by omega) le_rfl)

theorem decodeOnce_nomatch (c : Char) (cs : List Char)
    (h1 : isPre ampP (c :: cs) = false) (h2 : isPre ltP (c :: cs) = false)
    (h3 : isPre gtP (c :: cs) = false) (h4 : isPre quotP (c :: cs) = false)
    (h5 : isPre aposP (c :: cs) = false) :
    decodeOnce (c :: cs) = c :: decodeOnce cs := by
  show decodeOnceF (cs.length + 1) (c :: cs) = _
  simp only [decodeOnceF, h1, h2, h3, h4, h5, Bool.false_eq_true, if_false]
  rfl

/-- The central decoding fact: on a list in which `&amp;` does not occur,
the four remaining sequential passes of the code coincide with the
once-only decoding (the replacement characters `<`, `>`, `"`, `'` cannot
begin or recombine into any later pattern; only the `&` produced by the
`&amp;` pass could). -/
theorem decodeTail_eq_decodeOnce :
    ∀ (n : Nat) (l : List Char), l.length ≤ n → containsSeq ampP l = false →
      decodeTail l = decodeOnce l := by
  intro n
  induction n with
  | zero =>
      intro l h _
      have hl : l = [] := List.eq_nil_of_length_eq_zero (Nat.le_zero.mp h)
      subst hl; rfl
  | succ m ih =>
      intro l hlen hamp
      rcases l with _ | ⟨c, cs⟩
      · rfl
      · obtain ⟨hampPre, hampTail⟩ := containsSeq_cons_false hamp
        simp only [List.length_cons] at hlen
        by_cases hlt : isPre ltP (c :: cs) = true
        · obtain ⟨t, ht⟩ := (isPre_iff ltP (c :: cs)).mp hlt
          rw [ht]
          rw [decodeTail_lt t, decodeOnce_lt t]
          have hlt4 : (c :: cs).length = t.length + 4 := by simp [ht, ltP]
          refine congrArg _ (ih t (by simp only [List.length_cons] at hlt4; omega) ?_)
          exact containsSeq_false_of_append ltP t (ht ▸ hamp)
        · by_cases hgt : isPre gtP (c :: cs) = true
          · obtain ⟨t, ht⟩ := (isPre_iff gtP (c :: cs)).mp hgt
            rw [ht]
            rw [decodeTail_gt t, decodeOnce_gt t]
            have hlt4 : (c :: cs).length = t.length + 4 := by simp [ht, gtP]
            refine congrArg _ (ih t (by simp only [List.length_cons] at hlt4; omega) ?_)
            exact containsSeq_false_of_append gtP t (ht ▸ hamp)
          · by_cases hquot : isPre quotP (c :: cs) = true
            · obtain ⟨t, ht⟩ := (isPre_iff quotP (c :: cs)).mp hquot
              rw [ht]
              rw [decodeTail_quot t, decodeOnce_quot t]
              have hlt4 : (c :: cs).length = t.length + 6 := by simp [ht, quotP]
              refine congrArg _
                (ih t (by simp only [List.length_cons] at hlt4; omega) ?_)
              exact containsSeq_false_of_append quotP t (ht ▸ hamp)
            · by_cases hapos : isPre aposP (c :: cs) = true
              · obtain ⟨t, ht⟩ := (isPre_iff aposP (c :: cs)).mp hapos
                rw [ht]
                rw [decodeTail_apos t, decodeOnce_apos t]
                have hlt4 : (c :: cs).length = t.length + 5 := by simp [ht, aposP]
                refine congrArg _
                  (ih t (by simp only [List.length_cons] at hlt4; omega) ?_)
                exact containsSeq_false_of_append aposP t (ht ▸ hamp)
              · -- no pattern matches at this position
                have hlt' : isPre ltP (c :: cs) = false := by simpa using hlt
                have hgt' : isPre gtP (c :: cs) = false := by simpa using hgt
                have hquot' : isPre quotP (c :: cs) = false := by simpa using hquot
                have hapos' : isPre aposP (c :: cs) = false := by simpa using hapos
                have hrhs := decodeOnce_nomatch c cs hampPre hlt' hgt' hquot' hapos'
                have hih := ih cs (by omega) hampTail
                by_cases hc : c = '&'
                · subst hc
                  have hgtT : isPre ['g', 't', ';'] cs = false := by
                    simpa [isPre, gtP] using hgt'
                  have hquotT : isPre ['q', 'u', 'o', 't', ';'] cs = false := by
                    simpa [isPre, quotP] using hquot'
                  have haposT : isPre ['#', '3', '9', ';'] cs = false := by
                    simpa [isPre, aposP] using hapos'
                  have s1 : replaceAll ltP ['<'] ('&' :: cs)
                      = '&' :: replaceAll ltP ['<'] cs :=
                    replaceAll_neg' ltP ['<'] '&' cs hlt'
                  have hgtT1 : isPre ['g', 't', ';'] (replaceAll ltP ['<'] cs) = false :=
                    isPre_false_replaceAll ltP (by decide) '<' cs _
                      (by decide) hgtT
                  have s2 : replaceAll gtP ['>'] ('&' :: replaceAll ltP ['<'] cs)
                      = '&' :: replaceAll gtP ['>'] (replaceAll ltP ['<'] cs) := by
                    refine replaceAll_neg' gtP ['>'] '&' _ ?_
                    simp [gtP, isPre, hgtT1]
                  have hquotT1 : isPre ['q', 'u', 'o', 't', ';']
                      (replaceAll gtP ['>'] (replaceAll ltP ['<'] cs)) = false := by
                    refine isPre_false_replaceAll gtP (by decide) '>' _ _
                      (by decide) ?_
                    exact isPre_false_replaceAll ltP (by decide) '<' cs _
                      (by decide) hquotT
                  have s3 : replaceAll quotP ['"']
                        ('&' :: replaceAll gtP ['>'] (replaceAll ltP ['<'] cs))
                      = '&' :: replaceAll quotP ['"']
                          (replaceAll gtP ['>'] (replaceAll ltP ['<'] cs)) := by
                    refine replaceAll_neg' quotP ['"'] '&' _ ?_
                    simp [quotP, isPre, hquotT1]
                  have haposT1 : isPre ['#', '3', '9', ';']
                      (replaceAll quotP ['"']
                        (replaceAll gtP ['>'] (replaceAll ltP ['<'] cs))) = false := by
                    refine isPre_false_replaceAll quotP (by decide) '"' _ _
                      (by decide) ?_
                    refine isPre_false_replaceAll gtP (by decide) '>' _ _
                      (by decide) ?_
                    exact isPre_false_replaceAll ltP (by decide) '<' cs _
                      (by decide) haposT
                  have s4 : replaceAll aposP [aposC]
                        ('&' :: replaceAll quotP ['"']
                          (replaceAll gtP ['>'] (replaceAll ltP ['<'] cs)))
                      = '&' :: replaceAll aposP [aposC]
                          (replaceAll quotP ['"']
                            (replaceAll gtP ['>'] (replaceAll ltP ['<'] cs))) := by
                    refine replaceAll_neg' aposP [aposC] '&' _ ?_
                    simp [aposP, isPre, haposT1]
                  calc decodeTail ('&' :: cs)
                      = '&' :: decodeTail cs := by
                        unfold decodeTail decodeTail3
                        rw [s1, s2, s3, s4]
                    _ = '&' :: decodeOnce cs := by rw [hih]
                    _ = decodeOnce ('&' :: cs) := hrhs.symm
                · calc decodeTail (c :: cs)
                      = c :: decodeTail cs := decodeTail_cons_ne c hc cs
                    _ = c :: decodeOnce cs := by rw [hih]
                    _ = decodeOnce (c :: cs) := hrhs.symm

/-- The result of `dropWhile (· != '>')` is empty or starts with `'>'`. -/
theorem dropWhile_gt_shape (cs : List Char) :
    cs.dropWhile (fun x => x != '>') = [] ∨
      ∃ r, cs.dropWhile (fun x => x != '>') = '>' :: r := by
  induction cs with
  | nil => exact Or.inl rfl
  | cons c cs ih =>
      by_cases h : (c != '>') = true
      · simpa [List.dropWhile_cons, h] using ih
      · have hc : c = '>' := by simpa using h
        subst hc
        exact Or.inr ⟨cs, by simp [List.dropWhile_cons]⟩

theorem dropWhile_gt_len (cs : List Char) :
    (cs.dropWhile (fun x => x != '>')).length ≤ cs.length :=
  (List.dropWhile_sublist _).length_le

theorem stripTagsF_fuel :
    ∀ f1 f2 l, l.length ≤ f1 → l.length ≤ f2 →
      stripTagsF f1 l = stripTagsF f2 l := by
  intro f1
  induction f1 with
  | zero =>
      intro f2 l h1 _
      have hl : l = [] := List.eq_nil_of_length_eq_zero (Nat.le_zero.mp h1)
      subst hl; cases f2 <;> rfl
  | succ f ih =>
      intro f2 l h1 h2
      cases l with
      | nil => cases f2 <;> rfl
      | cons c cs =>
        cases f2 with
        | zero => simp at h2
        | succ g =>
          simp only [List.length_cons] at h1 h2
          simp only [stripTagsF]
          by_cases hc : c = '<'
          · rw [if_pos hc, if_pos hc]
            rcases dropWhile_gt_shape cs with hdw | ⟨rest2, hdw⟩
            · rcases htw : cs.takeWhile (fun x => x != '>') with _ | ⟨u, us⟩ <;>
                · simp only [hdw, htw]
                  exact congrArg _ (ih g cs (by omega) (by omega))
            · have hr2 : rest2.length < cs.length := by
                have := dropWhile_gt_len cs
                rw [hdw] at this
                simp only [List.length_cons] at this
                omega
              rcases htw : cs.takeWhile (fun x => x != '>') with _ | ⟨u, us⟩
              · simp only [hdw, htw]
                exact congrArg _ (ih g cs (by omega) (by omega))
              · simp only [hdw, htw]
                exact ih g rest2 (by omega) (by omega)
          · rw [if_neg hc, if_neg hc]
            exact congrArg _ (ih g cs (by omega) (by omega))

theorem stripTags_cons_ne (c : Char) (cs : List Char) (h : ¬ c = '<') :
    stripTags (c :: cs) = c :: stripTags cs := by
  show stripTagsF (cs.length + 1) (c :: cs) = _
  simp only [stripTagsF, if_neg h]
  rfl

theorem stripTags_tag (cs rest2 : List Char)
    (hdw : cs.dropWhile (fun x => x != '>') = '>' :: rest2)
    (htw : cs.takeWhile (fun x => x != '>') ≠ []) :
    stripTags ('<' :: cs) = stripTags rest2 := by
  show stripTagsF (cs.length + 1) ('<' :: cs) = _
  simp only [stripTagsF, if_pos rfl]
  rcases htww : cs.takeWhile (fun x => x != '>') with _ | ⟨u, us⟩
  · exact absurd htww htw
  · simp only [hdw, htww]
    have hr2 : rest2.length < cs.length := by
      have := dropWhile_gt_len cs
      rw [hdw] at this
      simp only [List.length_cons] at this
      omega
    exact stripTagsF_fuel cs.length rest2.length rest2 (by omega) le_rfl

theorem stripTags_lt_nomatch (cs : List Char)
    (h : cs.dropWhile (fun x => x != '>') = [] ∨
      cs.takeWhile (fun x => x != '>') = []) :
    stripTags ('<' :: cs) = '<' :: stripTags cs := by
  show stripTagsF (cs.length + 1) ('<' :: cs) = _
  simp only [stripTagsF, if_pos rfl]
  rcases h with hdw | htw
  · rcases htww : cs.takeWhile (fun x => x != '>') with _ | ⟨u, us⟩ <;>
      · simp only [hdw, htww]
        rfl
  · rcases dropWhile_gt_shape cs with hdw | ⟨rest2, hdw⟩ <;>
      · simp only [hdw, htw]
        rfl

theorem mem_stripTags :
    ∀ (n : Nat) (l : List Char), l.length ≤ n →
      ∀ x, x ∈ stripTags l → x ∈ l := by
  intro n
  induction n with
  | zero =>
      intro l h x hx
      have hl : l = [] := List.eq_nil_of_length_eq_zero (Nat.le_zero.mp h)
      subst hl
      rw [show stripTags ([] : List Char) = [] from rfl] at hx
      exact hx
  | succ m ih =>
      intro l hlen x hx
      rcases l with _ | ⟨c, cs⟩
      · rw [show stripTags ([] : List Char) = [] from rfl] at hx
        exact hx
      · simp only [List.length_cons] at hlen
        by_cases hc : c = '<'
        · subst hc
          rcases dropWhile_gt_shape cs with hdw | ⟨rest2, hdw⟩
          · rw [stripTags_lt_nomatch cs (Or.inl hdw)] at hx
            rcases List.mem_cons.mp hx with rfl | hx'
            · exact List.mem_cons_self _ _
            · exact List.mem_cons_of_mem _ (ih cs (by omega) x hx')
          · rcases htw : cs.takeWhile (fun x => x != '>') with _ | ⟨u, us⟩
            · rw [stripTags_lt_nomatch cs (Or.inr htw)] at hx
              rcases List.mem_cons.mp hx with rfl | hx'
              · exact List.mem_cons_self _ _
              · exact List.mem_cons_of_mem _ (ih cs (by omega) x hx')
            · have hr2 : rest2.length < cs.length := by
                have := dropWhile_gt_len cs
                rw [hdw] at this
                simp only [List.length_cons] at this
                omega
              rw [stripTags_tag cs rest2 hdw (by simp [htw])] at hx
              have hx2 : x ∈ rest2 := ih rest2 (by omega) x hx
              have hx3 : x ∈ cs := by
                have hsub := (List.dropWhile_sublist
                  (p := fun x => x != '>') (l := cs)).subset
                exact hsub (by rw [hdw]; exact List.mem_cons_of_mem _ hx2)
              exact List.mem_cons_of_mem _ hx3
        · rw [stripTags_cons_ne c cs hc] at hx
          rcases List.mem_cons.mp hx with rfl | hx'
          · exact List.mem_cons_self _ _
          · exact List.mem_cons_of_mem _ (ih cs (by omega) x hx')

/-- Tag stripping leaves no `<[^>]+>` fragment behind. -/
theorem hasTag_stripTags :
    ∀ (n : Nat) (l : List Char), l.length ≤ n →
      hasTag (stripTags l) = false := by
  intro n
  induction n with
  | zero =>
      intro l h
      have hl : l = [] := List.eq_nil_of_length_eq_zero (Nat.le_zero.mp h)
      subst hl; rfl
  | succ m ih =>
      intro l hlen
      rcases l with _ | ⟨c, cs⟩
      · rfl
      · simp only [List.length_cons] at hlen
        by_cases hc : c = '<'
        · subst hc
          rcases dropWhile_gt_shape cs with hdw | ⟨rest2, hdw⟩
          · -- no '>' anywhere in cs, hence none in stripTags cs
            have hall : ∀ x ∈ cs, (x != '>') = true := by
              intro x hxm
              have := List.dropWhile_eq_nil_iff.mp hdw
              simpa using this x hxm
            have hnone : stripTags ('<' :: cs) = '<' :: stripTags cs :=
              stripTags_lt_nomatch cs (Or.inl hdw)
            rw [hnone]
            have hdwX : (stripTags cs).dropWhile (fun x => x != '>') = [] := by
              rw [List.dropWhile_eq_nil_iff]
              intro x hxm
              exact hall x (mem_stripTags cs.length cs le_rfl x hxm)
            simp only [hasTag, hdwX]
            simp [ih cs (by omega)]
          · rcases htw : cs.takeWhile (fun x => x != '>') with _ | ⟨u, us⟩
            · -- head of cs is '>': cs = '>' :: rest2
              have hcs : cs = '>' :: rest2 := by
                cases cs with
                | nil => simp at hdw
                | cons d ds =>
                  by_cases hd : (d != '>') = true
                  · simp [List.takeWhile_cons, hd] at htw
                  · have hd' : d = '>' := by simpa using hd
                    subst hd'
                    simp only [List.dropWhile_cons] at hdw
                    simp at hdw
                    rw [hdw]
              rw [stripTags_lt_nomatch cs (Or.inr htw), hcs,
                stripTags_cons_ne '>' rest2 (by decide)]
              have hr2 : rest2.length < cs.length := by rw [hcs]; simp
              have e1 : (('>' : Char) != '>') = false := by decide
              have e2 : (('>' : Char) == '<') = false := by decide
              simp [hasTag, List.takeWhile_cons, e1, e2, ih rest2 (by omega)]
            · have hr2 : rest2.length < cs.length := by
                have := dropWhile_gt_len cs
                rw [hdw] at this
                simp only [List.length_cons] at this
                omega
              rw [stripTags_tag cs rest2 hdw (by simp [htw])]
              exact ih rest2 (by omega)
        · rw [stripTags_cons_ne c cs hc]
          simp only [hasTag]
          simp [beq_eq_false_iff_ne.mpr hc, ih cs (by omega)]

/-- `data.json()` result of the oEmbed endpoint: only the `html` field is
read. -/
structure OembedData where
  html : Option (List Char)

/-- `data2.json()` result of the syndication endpoint: only the `text`
field is read. -/
structure SyndData where
  text : Option (List Char)

/-- The two network calls `fetchTweetText` can make: each `fetch` may
reject (`Except.error`) or resolve with its `ok` flag; each `.json()` may
reject or resolve with the parsed data. -/
structure TweetNet where
  oembedFetch : Except String Bool
  oembedJson : Except String OembedData
  syndFetch : Except String Bool
  syndJson : Except String SyndData

/-- Lines 48-53 continued to the final `return ''` (lines 54-58): the
syndication stage.  Every path through here has performed the fallback
fetch, so the flag is `true`. -/
def syndPart (net : TweetNet) : List Char × Bool :=
  match net.syndFetch with
  | Except.error _ => ([], true)
  | Except.ok ok2 =>
    if ok2 then
      match net.syndJson with
      | Except.error _ => ([], true)
      | Except.ok d2 =>
        match d2.text with
        | some t => if t = [] then ([], true) else (t, true)
        | none => ([], true)
    else ([], true)

/-- `fetchTweetText(url)` (lines 27-59).  Returns the resolved text and
whether the syndication fallback fetch was performed.  The single `try`
block wraps both stages, so a rejection in the oEmbed stage jumps to the
`catch` and returns `''` without calling the fallback. -/
def fetchTweetTextM (url : List Char) (net : TweetNet) : List Char × Bool :=
  if url = [] then ([], false)
  else
    match net.oembedFetch with
    | Except.error _ => ([], false)
    | Except.ok ok1 =>
      if ok1 then
        match net.oembedJson with
        | Except.error _ => ([], false)
        | Except.ok d =>
          match extractFragment (d.html.getD []) with
          | some frag => (postprocess frag, false)
          | none => syndPart net
      else syndPart net

theorem syndPart_snd (net : TweetNet) : (syndPart net).2 = true := by
  unfold syndPart
  rcases h : net.syndFetch with e | ok2
  · rfl
  · cases ok2
    · rfl
    · rcases hj : net.syndJson with e | d2
      · rfl
      · rcases ht : d2.text with _ | t
        · simp [ht]
        · by_cases h0 : t = [] <;> simp [ht, h0]

theorem syndPart_text (net : TweetNet) (d2 : SyndData) (t : List Char)
    (h1 : net.syndFetch = Except.ok true) (h2 : net.syndJson = Except.ok d2)
    (h3 : d2.text = some t) (ht : t ≠ []) : (syndPart net).1 = t := by
  unfold syndPart
  rw [h1]
  simp [h2, h3, ht]

/-- C5, counterexample: the oEmbed markup `<p>&amp;lt;</p>` yields the
fragment `&amp;lt;`, whose single source entity occurrence `&amp;` should
decode once to give `&lt;`; the code's sequential replacement chain instead
re-decodes the replacement `&` with the following `lt;` and produces `<` —
a cascaded double decoding. -/
theorem C5_counterexample :
    extractFragment "<p>&amp;lt;</p>".data = some "&amp;lt;".data ∧
    postprocess "&amp;lt;".data = "<".data ∧
    decodeOnce (stripTags "&amp;lt;".data) = "&lt;".data ∧
    postprocess "&amp;lt;".data ≠ decodeOnce (stripTags "&amp;lt;".data) := by
  decide

/-- C5 (amended): for every fragment, tag stripping removes every `<...>`
fragment (none remains in its output), and the entity decoding — performed
as five sequential global replacements in the order
`&amp; &lt; &gt; &quot; &#39;` — agrees with decoding each source occurrence
exactly once on every fragment in which the substring `&amp;` does not
occur; when `&amp;` occurs, its replacement `&` can recombine with following
text and be re-decoded by a later pass (e.g. `&amp;lt;` yields `<`). -/
theorem C5_amended (frag : List Char) :
    hasTag (stripTags frag) = false ∧
    (containsSeq ampP (stripTags frag) = false →
      postprocess frag = decodeOnce (stripTags frag)) := by
  constructor
  · exact hasTag_stripTags frag.length frag le_rfl
  · intro hamp
    show decodeTail (replaceAll ampP ['&'] (stripTags frag)) = _
    rw [replaceAll_id ampP ['&'] (stripTags frag) hamp]
    exact decodeTail_eq_decodeOnce (stripTags frag).length _ le_rfl hamp

/-- C5 witness: the amended theorem applied to a concrete fragment holding
all four remaining entities and a tag. -/
theorem C5_witness :
    hasTag (stripTags "a &lt;b&gt; &quot;c&#39; <x>d".data) = false ∧
    postprocess "a &lt;b&gt; &quot;c&#39; <x>d".data
      = decodeOnce (stripTags "a &lt;b&gt; &quot;c&#39; <x>d".data) := by
  have h := C5_amended "a &lt;b&gt; &quot;c&#39; <x>d".data
  exact ⟨h.1, h.2 (by decide)⟩

/-- C6, counterexample: the `try` block wraps both stages, so a rejected
oEmbed `fetch` jumps straight to the `catch` and returns `''` — the
syndication fallback is *not* called, although it was reachable and carried
a non-empty text for this URL. -/
theorem C6_counterexample :
    "u".data ≠ [] ∧
    fetchTweetTextM "u".data
        { oembedFetch := Except.error "network reset",
          oembedJson := Except.ok { html := none },
          syndFetch := Except.ok true,
          syndJson := Except.ok { text := some "hello".data } } = ([], false) ∧
    "hello".data ≠ [] := by
  decide

/-- C6 (amended): for every non-empty URL where the embed-metadata source
fails *without throwing* — by a non-success HTTP status, or by a parsed
response with no extractable paragraph fragment — the resolver calls the
syndication fallback and returns its non-empty text when present, and
returns `''` only when the fallback also yields nothing; a thrown
network/parsing error in the embed stage instead aborts the whole resolver
with `''` and the fallback is not called. -/
theorem C6_amended (url : List Char) (net : TweetNet)
    (hurl : url ≠ [])
    (hfail : net.oembedFetch = Except.ok false ∨
      (net.oembedFetch = Except.ok true ∧ ∃ d, net.oembedJson = Except.ok d ∧
        extractFragment (d.html.getD []) = none)) :
    (fetchTweetTextM url net).2 = true ∧
    (∀ d2 t, net.syndFetch = Except.ok true → net.syndJson = Except.ok d2 →
      d2.text = some t → t ≠ [] → (fetchTweetTextM url net).1 = t) ∧
    ((fetchTweetTextM url net).1 = [] → ∀ d2 t,
      net.syndFetch = Except.ok true → net.syndJson = Except.ok d2 →
      d2.text = some t → t = []) ∧
    (∀ e, net.oembedFetch = Except.error e →
      fetchTweetTextM url net = ([], false)) := by
  have hM : fetchTweetTextM url net = syndPart net := by
    rcases hfail with h | ⟨h1, d, h2, h3⟩
    · simp [fetchTweetTextM, hurl, h]
    · simp [fetchTweetTextM, hurl, h1, h2, h3]
  refine ⟨?_, ?_, ?_, ?_⟩
  · rw [hM]; exact syndPart_snd net
  · intro d2 t h1 h2 h3 ht
    rw [hM]; exact syndPart_text net d2 t h1 h2 h3 ht
  · intro h0 d2 t h1 h2 h3
    by_contra hne
    rw [hM] at h0
    rw [syndPart_text net d2 t h1 h2 h3 hne] at h0
    exact hne h0
  · intro e he
    rcases hfail with h | ⟨h1, _, _, _⟩
    · rw [h] at he; cases he
    · rw [h1] at he; cases he

/-- C6 witness: the amended theorem at a concrete non-ok embed response and
a fallback carrying `hello`. -/
theorem C6_witness :
    (fetchTweetTextM "u".data
        { oembedFetch := Except.ok false, oembedJson := Except.ok { html := none },
          syndFetch := Except.ok true,
          syndJson := Except.ok { text := some "hello".data } }).2 = true ∧
    (fetchTweetTextM "u".data
        { oembedFetch := Except.ok false, oembedJson := Except.ok { html := none },
          syndFetch := Except.ok true,
          syndJson := Except.ok { text := some "hello".data } }).1
      = "hello".data := by
  have h := C6_amended "u".data
    { oembedFetch := Except.ok false, oembedJson := Except.ok { html := none },
      syndFetch := Except.ok true,
      syndJson := Except.ok { text := some "hello".data } }
    (by decide) (Or.inl rfl)
  exact ⟨h.1, h.2.1 { text := some "hello".data } "hello".data rfl rfl rfl (by decide)⟩

end HillPulse
